import Mathlib

/-!
Shallow embedding of the validation engine in `src/parser/validator.rs`
(struct `Validator`, struct `Conflicts`, fn `get_possible_values_cli`).

The schema (`Command`), matcher (`ArgMatcher`) and their query operations are
external collaborators of the validator; their query surface is modelled from
the specification.  All validator logic (`validate`, `validate_conflicts`,
`validate_exclusive`, `build_conflict_err`, `gather_requires`,
`validate_required`, `is_missing_required_ok`, `fails_arg_required_unless`,
`Conflicts::gather_conflicts`, `Conflicts::gather_direct_conflicts`,
`get_possible_values_cli`) is translated directly from the source.

Release semantics are used for `debug_assert!` (a no-op followed by the
fallback value), while `.expect(INTERNAL_ERROR_MSG)` and the panicking index
`self.cmd[&a]` are modelled as the distinguished outcome
`ValidationError.internalErr`.
-/

namespace Clap

/-- Identifier naming one argument or one group (`util::Id`). -/
abbrev ArgId := String

/-- One possible value of an option (`builder::PossibleValue`): a name and a
hide flag (`is_hide_set`). -/
structure PossibleValue where
  name : String
  hide : Bool := false
deriving DecidableEq, Repr

/-- `builder::ArgPredicate`: either plain presence or equality with a value. -/
inductive ArgPredicate where
  | isPresent : ArgPredicate
  | equals : String → ArgPredicate
deriving DecidableEq, Repr

/-- Modelled from the spec: an argument schema entity.  Fields mirror the
ones the validator reads: positional index (`get_index`), takes-value flag,
minimum value count (`get_min_vals`), required flag, flags
{exclusive, hidden, last}, conflict list (`blacklist`), override list
(`overrides`), conditional requirement lists (`requires`, `r_ifs`,
`r_ifs_all`, `r_unless`, `r_unless_all`) and declared possible values. -/
structure Arg where
  id : ArgId
  index : Option Nat := none
  takes_value : Bool := false
  min_vals : Nat := 1
  required : Bool := false
  exclusive : Bool := false
  hidden : Bool := false
  last : Bool := false
  blacklist : List ArgId := []
  overrides : List ArgId := []
  requires : List (ArgPredicate × ArgId) := []
  r_ifs : List (ArgId × String) := []
  r_ifs_all : List (ArgId × String) := []
  r_unless : List ArgId := []
  r_unless_all : List ArgId := []
  possible_values : List PossibleValue := []
deriving DecidableEq, Repr

/-- Modelled from the spec: a group schema entity with member identifiers,
a multiple-membership flag, a required flag, declared conflicts and declared
requires. -/
structure Group where
  id : ArgId
  args : List ArgId := []
  multiple : Bool := false
  required : Bool := false
  conflicts : List ArgId := []
  requires : List ArgId := []
deriving DecidableEq, Repr

/-- Modelled from the spec: the read-only schema (`builder::Command`) as the
validator sees it: its arguments, its groups and the four schema-level flags
consulted during validation. -/
structure Command where
  args : List Arg := []
  groups : List Group := []
  name : String := "prog"
  bin_name : Option String := none
  arg_required_else_help : Bool := false
  subcommand_required : Bool := false
  subcommand_negates_reqs : Bool := false
  allow_missing_positional : Bool := false
deriving DecidableEq, Repr

/-- Modelled from the spec: resolve an identifier to an argument definition
(`Command::find`). -/
def Command.find (cmd : Command) (id : ArgId) : Option Arg :=
  cmd.args.find? (fun a => decide (a.id = id))

/-- Modelled from the spec: resolve an identifier to a group definition
(`Command::find_group`). -/
def Command.find_group (cmd : Command) (id : ArgId) : Option Group :=
  cmd.groups.find? (fun g => decide (g.id = id))

/-- Modelled from the spec: enumerate the groups an argument belongs to
(`Command::groups_for_arg`). -/
def Command.groups_for_arg (cmd : Command) (arg : ArgId) : List ArgId :=
  (cmd.groups.filter (fun g => decide (arg ∈ g.args))).map Group.id

/-- Modelled from the spec: enumerate all arguments (`Command::get_arguments`). -/
def Command.get_arguments (cmd : Command) : List Arg :=
  cmd.args

/-- Modelled from the spec: enumerate all positional arguments
(`Command::get_positionals`); positionals are the arguments carrying an index. -/
def Command.get_positionals (cmd : Command) : List Arg :=
  cmd.args.filter (fun a => a.index.isSome)

/-- Modelled from the spec: expand a group identifier to its member argument
identifiers (`Command::unroll_args_in_group`), recursing through member
identifiers that name groups rather than arguments.  The recursion is bounded
by a fuel argument; the schemas of interest are acyclic, where the bound
`cmd.groups.length + 1` is never reached. -/
def Command.unroll_args_in_group_fuel (cmd : Command) : Nat → ArgId → List ArgId
  | 0, _ => []
  | fuel + 1, gid =>
    match cmd.find_group gid with
    | none => []
    | some g =>
      g.args.flatMap (fun n =>
        if (cmd.find n).isSome then [n] else cmd.unroll_args_in_group_fuel fuel n)

/-- Modelled from the spec: expand a group identifier to its member argument
identifiers (`Command::unroll_args_in_group`). -/
def Command.unroll_args_in_group (cmd : Command) (gid : ArgId) : List ArgId :=
  cmd.unroll_args_in_group_fuel (cmd.groups.length + 1) gid

/-- Modelled from the spec: a predicate-filtered requirement unrolling for an
argument (`Command::unroll_arg_requires`): every `(predicate, target)` entry
of the conditional-requires list of the argument is passed through the filter
function, and the surviving targets are returned in order. -/
def Command.unroll_arg_requires
    (cmd : Command) (f : ArgPredicate × ArgId → Option ArgId) (arg : ArgId) :
    List ArgId :=
  match cmd.find arg with
  | some a => a.requires.filterMap f
  | none => []

/-- Insert-if-absent on an ordered list, the insertion operation of
`util::ChildGraph` (and the first-occurrence deduplication of
`FlatSet::insert`): appends the element unless it is already present. -/
def insertIfNew (l : List ArgId) (x : ArgId) : List ArgId :=
  if x ∈ l then l else l ++ [x]

/-- Insert a whole list, left to right, with `insertIfNew`. -/
def insertAll (l : List ArgId) (xs : List ArgId) : List ArgId :=
  xs.foldl insertIfNew l

/-- Modelled from the spec: the statically-computable closure of
unconditionally required identifiers (`Command::required_graph`): every
argument flagged required, then every required group together with its
declared requires. -/
def Command.required_graph (cmd : Command) : List ArgId :=
  let reqArgs :=
    ((cmd.args.filter Arg.required).map Arg.id).foldl insertIfNew []
  cmd.groups.foldl
    (fun acc g =>
      if g.required then insertAll (insertIfNew acc g.id) g.requires else acc)
    reqArgs

/-- Modelled from the spec: the record the matcher keeps for one supplied
identifier: whether the value came from explicit user input (as opposed to a
default value) and the recorded groups of raw values. -/
structure MatchedArg where
  explicit : Bool := true
  vals : List (List String) := []
deriving DecidableEq, Repr

/-- Modelled from the spec: `MatchedArg::all_val_groups_empty` — no recorded
value in any value group. -/
def MatchedArg.all_val_groups_empty (ma : MatchedArg) : Bool :=
  ma.vals.flatten.isEmpty

/-- Modelled from the spec: `MatchedArg::check_explicit` — false for
default-valued entries; presence is then immediate, and equality tests the
value against the flattened recorded raw values. -/
def MatchedArg.check_explicit (ma : MatchedArg) (pred : ArgPredicate) : Bool :=
  ma.explicit &&
    match pred with
    | .isPresent => true
    | .equals v => decide (v ∈ ma.vals.flatten)

/-- Modelled from the spec: the matcher (`parser::ArgMatcher`): the recorded
identifier entries in insertion order, and the matched subcommand name. -/
structure ArgMatcher where
  entries : List (ArgId × MatchedArg) := []
  subcommand : Option String := none
deriving DecidableEq, Repr

/-- Modelled from the spec: `ArgMatcher::get` — the record for one identifier. -/
def ArgMatcher.get (m : ArgMatcher) (id : ArgId) : Option MatchedArg :=
  (m.entries.find? (fun e => decide (e.1 = id))).map Prod.snd

/-- Modelled from the spec: `ArgMatcher::check_explicit` for an identifier —
false when the identifier has no matcher record. -/
def ArgMatcher.check_explicit (m : ArgMatcher) (id : ArgId) (pred : ArgPredicate) :
    Bool :=
  match m.get id with
  | some ma => ma.check_explicit pred
  | none => false

/-- The identifiers the matcher reports as explicitly present, in matcher
iteration order: `matcher.arg_ids().filter(check_explicit IsPresent)`. -/
def ArgMatcher.present_ids (m : ArgMatcher) : List ArgId :=
  (m.entries.map Prod.fst).filter (fun i => m.check_explicit i .isPresent)

/-- `parser::ParseState` as the validator consumes it: parsing completed, or
ended while option `id` was still awaiting values (`ParseState::Opt`). -/
inductive ParseState where
  | complete : ParseState
  | opt : ArgId → ParseState
deriving DecidableEq, Repr

/-- The validation outcomes: the five user-facing error kinds of the
validator, plus `internalErr` standing for a panic through
`.expect(INTERNAL_ERROR_MSG)` or the panicking schema index. -/
inductive ValidationError where
  | emptyValue (arg : ArgId) (possible : List String)
  | displayHelp
  | missingSubcommand (bin : String)
  | argumentConflict (former : ArgId) (conflicts : List ArgId)
  | missingRequiredArgument (required : List ArgId)
  | internalErr
deriving DecidableEq, Repr

/-- `get_possible_values_cli` from the source: empty unless the argument takes
a value, otherwise the declared possible values. -/
def get_possible_values_cli (a : Arg) : List PossibleValue :=
  if !a.takes_value then [] else a.possible_values

/-- `Conflicts::gather_direct_conflicts` from the source (the memoising cache
is elided: the computed value depends only on the immutable schema).  For an
argument: its blacklist, then per containing group the group conflicts plus,
for non-multiple groups, every other member; then its overrides.  For a group:
its declared conflicts.  For an unknown identifier: `debug_assert!(false)`
followed by the empty fallback (release semantics). -/
def gather_direct_conflicts (cmd : Command) (arg_id : ArgId) : List ArgId :=
  match cmd.find arg_id with
  | some arg =>
    let conf := arg.blacklist
    let conf :=
      (cmd.groups_for_arg arg_id).foldl
        (fun conf group_id =>
          match cmd.find_group group_id with
          | some group =>
            let conf := conf ++ group.conflicts
            if !group.multiple then
              conf ++ group.args.filter (fun mem => decide (mem ≠ arg_id))
            else conf
          | none => conf)
        conf
    conf ++ arg.overrides
  | none =>
    match cmd.find_group arg_id with
    | some group => group.conflicts
    | none => []

/-- `Conflicts::gather_conflicts` from the source: scan every other present
identifier; push it once if it is in the direct-conflict set of `arg_id`, and
once more if `arg_id` is in its direct-conflict set. -/
def gather_conflicts (cmd : Command) (m : ArgMatcher) (arg_id : ArgId) :
    List ArgId :=
  m.present_ids.flatMap (fun other =>
    if other = arg_id then []
    else
      (if other ∈ gather_direct_conflicts cmd arg_id then [other] else []) ++
      (if arg_id ∈ gather_direct_conflicts cmd other then [other] else []))

/-- `Validator::validate_exclusive` from the source: with more than one
present identifier, the first present identifier resolving to an exclusive
argument fails with an `ArgumentConflict` carrying an empty conflict list. -/
def validate_exclusive (cmd : Command) (m : ArgMatcher) :
    Except ValidationError Unit :=
  let args_count := m.present_ids.length
  if args_count ≤ 1 then .ok ()
  else
    match
      (m.present_ids.filterMap (fun name =>
        (cmd.find name).filter (fun arg => arg.exclusive && args_count > 1))).head?
    with
    | some arg => .error (.argumentConflict arg.id [])
    | none => .ok ()

/-- `Validator::build_conflict_err` from the source: nothing to do on an
empty conflict list; otherwise conflicting group identifiers are expanded to
their members, duplicates are dropped keeping first occurrences, and each
survivor as well as the former argument is resolved through
`.expect(INTERNAL_ERROR_MSG)` (modelled as `internalErr` on failure) before
the `ArgumentConflict` error is produced. -/
def build_conflict_err (cmd : Command) (name : ArgId) (conflict_ids : List ArgId) :
    Except ValidationError Unit :=
  if conflict_ids.isEmpty then .ok ()
  else
    let expanded := conflict_ids.flatMap (fun c =>
      if (cmd.find_group c).isSome then cmd.unroll_args_in_group c else [c])
    let deduped := insertAll [] expanded
    if deduped.all (fun c => (cmd.find c).isSome) then
      if (cmd.find name).isSome then .error (.argumentConflict name deduped)
      else .error .internalErr
    else .error .internalErr

/-- The iteration of `Validator::validate_conflicts` over the present,
schema-known identifiers: the first one whose gathered conflict set produces
an error terminates the scan. -/
def conflictsLoop (cmd : Command) (m : ArgMatcher) :
    List ArgId → Except ValidationError Unit
  | [] => .ok ()
  | arg_id :: rest =>
    match build_conflict_err cmd arg_id (gather_conflicts cmd m arg_id) with
    | .ok _ => conflictsLoop cmd m rest
    | .error e => .error e

/-- `Validator::validate_conflicts` from the source: the exclusivity check
first, then the pairwise scan over present identifiers that resolve to
arguments. -/
def validate_conflicts (cmd : Command) (m : ArgMatcher) :
    Except ValidationError Unit :=
  match validate_exclusive cmd m with
  | .error e => .error e
  | .ok _ =>
    conflictsLoop cmd m (m.present_ids.filter (fun i => (cmd.find i).isSome))

/-- The per-identifier contribution of `Validator::gather_requires`: for a
present argument, the predicate-filtered unrolling of its requires entries,
each predicate tested against the argument itself; for a present group, its
declared requires; for an unknown identifier, nothing. -/
def requires_contribution (cmd : Command) (m : ArgMatcher) (name : ArgId) :
    List ArgId :=
  match cmd.find name with
  | some arg =>
    cmd.unroll_arg_requires
      (fun p => if m.check_explicit arg.id p.1 then some p.2 else none) arg.id
  | none =>
    match cmd.find_group name with
    | some g => g.requires
    | none => []

/-- `Validator::gather_requires` from the source: fold the contribution of
every explicitly-present identifier into the required set, insert-only. -/
def gather_requires (cmd : Command) (m : ArgMatcher) (required : List ArgId) :
    List ArgId :=
  m.present_ids.foldl
    (fun req name => insertAll req (requires_contribution cmd m name)) required

/-- The `is_exclusive_present` scan of `Validator::validate_required`: some
present identifier resolves to an argument flagged exclusive. -/
def is_exclusive_present (cmd : Command) (m : ArgMatcher) : Bool :=
  m.present_ids.any (fun id =>
    match cmd.find id with
    | some arg => arg.exclusive
    | none => false)

/-- `Validator::is_missing_required_ok` from the source: a required argument
is excused when it has a live conflict with something present. -/
def is_missing_required_ok (cmd : Command) (m : ArgMatcher) (a : Arg) : Bool :=
  !(gather_conflicts cmd m a.id).isEmpty

/-- `Validator::fails_arg_required_unless` from the source: the
requires-unless-all list is empty or not fully satisfied, and no
requires-unless entry is satisfied. -/
def fails_arg_required_unless (a : Arg) (m : ArgMatcher) : Bool :=
  (a.r_unless_all.isEmpty || !a.r_unless_all.all (fun id => m.check_explicit id .isPresent))
    && !(a.r_unless.any (fun id => m.check_explicit id .isPresent))

/-- Step C of `Validator::validate_required`: scan the required set for
entries not explicitly present, accumulating the missing list and the highest
positional index.  The exclusivity bypass (`!is_exclusive_present`) guards
only the argument branch in the source; the group branch is unguarded. -/
def stepC (cmd : Command) (m : ArgMatcher) (excl : Bool)
    (acc : List ArgId × Nat) (rs : List ArgId) : List ArgId × Nat :=
  rs.foldl
    (fun acc r =>
      if m.check_explicit r .isPresent then acc
      else
        match cmd.find r with
        | some arg =>
          if !excl && !(is_missing_required_ok cmd m arg) then
            (acc.1 ++ [arg.id],
             if arg.last then acc.2 else max acc.2 (arg.index.getD 0))
          else acc
        | none =>
          match cmd.find_group r with
          | some group =>
            if (cmd.unroll_args_in_group group.id).any
                (fun a => m.check_explicit a .isPresent) then acc
            else (acc.1 ++ [group.id], acc.2)
          | none => acc)
    acc

/-- The per-argument requirement decision of the conditional sweep (Step D)
of `Validator::validate_required`: a satisfied requires-if entry, or a
nonempty fully-satisfied requires-if-all list, or a nonempty
requires-unless/unless-all configuration failing its unless conditions. -/
def stepD_required_flag (m : ArgMatcher) (a : Arg) : Bool :=
  let c1 := a.r_ifs.any (fun p => m.check_explicit p.1 (.equals p.2))
  let c2 := (a.r_ifs_all.all (fun p => m.check_explicit p.1 (.equals p.2)))
    && !a.r_ifs_all.isEmpty
  let c3 := (!a.r_unless.isEmpty || !a.r_unless_all.isEmpty)
    && fails_arg_required_unless a m
  c1 || c2 || c3

/-- Step D of `Validator::validate_required`: every schema argument not
explicitly present whose requirement flag fires is appended to the missing
list, folding its positional index into the running maximum. -/
def stepD (cmd : Command) (m : ArgMatcher) (acc : List ArgId × Nat) :
    List ArgId × Nat :=
  (cmd.get_arguments.filter
    (fun a => !m.check_explicit a.id .isPresent)).foldl
    (fun acc a =>
      if stepD_required_flag m a then
        (acc.1 ++ [a.id],
         if a.last then acc.2 else max acc.2 (a.index.getD 0))
      else acc)
    acc

/-- The comparison `pos.get_index() < Some(highest_index)` on optional
indices, with the Rust ordering where `None` is below every `Some`. -/
def posIndexLt (idx : Option Nat) (highest : Nat) : Bool :=
  match idx with
  | none => true
  | some i => decide (i < highest)

/-- Step E of `Validator::validate_required` (positional back-fill): unless
the schema allows missing positionals, every not-yet-present positional with
index strictly below the running maximum is appended to the missing list. -/
def stepE (cmd : Command) (m : ArgMatcher) (missing : List ArgId)
    (highest : Nat) : List ArgId :=
  if !cmd.allow_missing_positional then
    missing ++
      ((cmd.get_positionals.filter (fun p =>
          !m.check_explicit p.id .isPresent && posIndexLt p.index highest)).map
        Arg.id)
  else missing

/-- `Validator::validate_required` from the source: requirement discovery
first, then the exclusivity scan, Steps C, D and E, and one aggregated
`MissingRequiredArgument` error when the missing list is nonempty.  The pair
also returns the final required set of the run. -/
def validate_required (cmd : Command) (m : ArgMatcher) (required : List ArgId) :
    Except ValidationError Unit × List ArgId :=
  let required := gather_requires cmd m required
  let excl := is_exclusive_present cmd m
  let acc := stepC cmd m excl ([], 0) required
  let acc := stepD cmd m acc
  let missing := stepE cmd m acc.1 acc.2
  (if missing.isEmpty then .ok () else .error (.missingRequiredArgument missing),
   required)

/-- The pending-value phase of `Validator::validate`: on
`ParseState::Opt(a)` the schema index panics on an unknown identifier
(`internalErr`); otherwise the option must have a nonempty value group
recorded, or a minimum value count of zero — an identifier with no matcher
record at all always errs.  The error carries the visible possible values. -/
def pendingCheck (cmd : Command) (ps : ParseState) (m : ArgMatcher) :
    Except ValidationError Unit :=
  match ps with
  | .complete => .ok ()
  | .opt a =>
    match cmd.find a with
    | none => .error .internalErr
    | some o =>
      let should_err :=
        match m.get o.id with
        | some v => v.all_val_groups_empty && o.min_vals != 0
        | none => true
      if should_err then
        .error (.emptyValue o.id
          (((get_possible_values_cli o).filter (fun pv => !pv.hide)).map
            PossibleValue.name))
      else .ok ()

/-- The help-on-no-args and subcommand-required phases of
`Validator::validate`. -/
def preChecks (cmd : Command) (m : ArgMatcher) (has_subcmd : Bool) :
    Except ValidationError Unit :=
  if !has_subcmd && cmd.arg_required_else_help && m.present_ids.length == 0 then
    .error .displayHelp
  else if !has_subcmd && cmd.subcommand_required then
    .error (.missingSubcommand (cmd.bin_name.getD cmd.name))
  else .ok ()

/-- `Validator::validate` from the source, with the required set seeded from
`Command::required_graph` at construction and threaded through; the returned
pair carries the outcome and the final required set of the run. -/
def validate (cmd : Command) (ps : ParseState) (m : ArgMatcher) :
    Except ValidationError Unit × List ArgId :=
  let required := cmd.required_graph
  let has_subcmd := m.subcommand.isSome
  match pendingCheck cmd ps m with
  | .error e => (.error e, required)
  | .ok _ =>
    match preChecks cmd m has_subcmd with
    | .error e => (.error e, required)
    | .ok _ =>
      match validate_conflicts cmd m with
      | .error e => (.error e, required)
      | .ok _ =>
        if !(cmd.subcommand_negates_reqs && has_subcmd) then
          validate_required cmd m required
        else (.ok (), required)

end Clap

namespace Clap

/-! Concrete schemas and matchers used to settle the claims. -/

/-- The empty matcher: nothing supplied, no subcommand. -/
def mEmpty : ArgMatcher := {}

/-- Schema with two independent conflicting pairs: `a` blacklists `b`, `c`
blacklists `d`. -/
def cmdC3a : Command := { args := [
  { id := "a", blacklist := ["b"] }, { id := "b" },
  { id := "c", blacklist := ["d"] }, { id := "d" }] }

/-- All four arguments of `cmdC3a` supplied. -/
def mC3a : ArgMatcher := { entries := [("a", {}), ("b", {}), ("c", {}), ("d", {})] }

/-- Schema with two independent required arguments `p` and `q`. -/
def cmdC3b : Command := { args := [
  { id := "p", required := true }, { id := "q", required := true }] }

/-- Schema with an exclusive argument `X` and a required group `G` whose only
member is the argument `M`. -/
def cmdC2 : Command :=
  { args := [{ id := "X", exclusive := true }, { id := "M" }]
    groups := [{ id := "G", args := ["M"], required := true }] }

/-- Only the exclusive `X` supplied. -/
def mC2 : ArgMatcher := { entries := [("X", {})] }

/-- The exclusive `X` supplied together with `M`. -/
def mC4 : ArgMatcher := { entries := [("X", {}), ("M", {})] }

/-- Required positional at index 1. -/
def argP1 : Arg := { id := "P1", index := some 1, required := true }

/-- Required positional at index 2. -/
def argP2 : Arg := { id := "P2", index := some 2, required := true }

/-- Schema with the two required positionals `P1` and `P2`. -/
def cmdC5 : Command := { args := [argP1, argP2] }

/-- Only the positional `P2` supplied, with one value. -/
def mC5 : ArgMatcher := { entries := [("P2", { vals := [["v"]] })] }

/-- Argument `A` with a requires-unless list naming `B`. -/
def argA : Arg := { id := "A", r_unless := ["B"] }

/-- Schema with `A` (requires-unless `B`) and `B`. -/
def cmdC6 : Command := { args := [argA, { id := "B" }] }

/-- Only `B` supplied. -/
def mC6B : ArgMatcher := { entries := [("B", {})] }

/-- A plain optional argument with no conditional-requirement lists at all. -/
def argV : Arg := { id := "v" }

/-- Schema containing only the plain optional argument `v`. -/
def cmdC6x : Command := { args := [argV] }

/-- Option taking a value with minimum count 1 and possible values `a`
(visible) and `b` (hidden). -/
def argCount : Arg :=
  { id := "count", takes_value := true, min_vals := 1
    possible_values := [{ name := "a" }, { name := "b", hide := true }] }

/-- Schema containing only the option `count`. -/
def cmdC7 : Command := { args := [argCount] }

/-- Matcher with one recorded but empty value group for `count`. -/
def mC7 : ArgMatcher := { entries := [("count", { vals := [[]] })] }

/-- Option taking a value with minimum count 0. -/
def argZ : Arg := { id := "z", takes_value := true, min_vals := 0 }

/-- Schema containing only the option `z`. -/
def cmdC7b : Command := { args := [argZ] }

/-- Schema with the single known argument `a`. -/
def cmdC8 : Command := { args := [{ id := "a" }] }

/-- Matcher reporting the known `a` and the schema-unknown `ghost` present. -/
def mC8 : ArgMatcher := { entries := [("a", {}), ("ghost", {})] }

/-- Schema where `A` blacklists `B` but `B` does not declare `A`. -/
def cmdC1 : Command := { args := [{ id := "A", blacklist := ["B"] }, { id := "B" }] }

/-- Both `A` and `B` supplied, `B` first in matcher order. -/
def mC1 : ArgMatcher := { entries := [("B", {}), ("A", {})] }

/-- Argument `s` with requires entries conditional on its own value. -/
def argS : Arg :=
  { id := "s", takes_value := true
    requires := [(.equals "on", "t"), (.isPresent, "u"), (.equals "off", "w")] }

/-- Schema with `s` and the three potential targets `t`, `u`, `w`. -/
def cmdC10 : Command := { args := [argS, { id := "t" }, { id := "u" }, { id := "w" }] }

/-- `s` supplied with the value `on`. -/
def mC10 : ArgMatcher := { entries := [("s", { vals := [["on"]] })] }

end Clap

namespace Clap

/-! Helper lemmas about the embedded operations. -/

theorem mem_insertIfNew {l : List ArgId} {a x : ArgId} :
    x ∈ insertIfNew l a ↔ x ∈ l ∨ x = a := by
  unfold insertIfNew
  by_cases h : a ∈ l
  · simp only [if_pos h]
    constructor
    · exact Or.inl
    · rintro (hx | rfl)
      · exact hx
      · exact h
  · simp [if_neg h]

theorem mem_insertAll {xs : List ArgId} :
    ∀ {l : List ArgId} {x : ArgId}, x ∈ insertAll l xs ↔ x ∈ l ∨ x ∈ xs := by
  induction xs with
  | nil => simp [insertAll]
  | cons a t ih =>
    intro l x
    have : insertAll l (a :: t) = insertAll (insertIfNew l a) t := rfl
    rw [this, ih, mem_insertIfNew]
    simp only [List.mem_cons]
    tauto

theorem find_eq_id {cmd : Command} {i : ArgId} {a : Arg}
    (h : cmd.find i = some a) : a.id = i := by
  unfold Command.find at h
  have := List.find?_some h
  exact of_decide_eq_true this

theorem find_group_eq_id {cmd : Command} {i : ArgId} {g : Group}
    (h : cmd.find_group i = some g) : g.id = i := by
  unfold Command.find_group at h
  have := List.find?_some h
  exact of_decide_eq_true this

theorem mem_present_of_mem_gather_conflicts {cmd : Command} {m : ArgMatcher}
    {a x : ArgId} (h : x ∈ gather_conflicts cmd m a) : x ∈ m.present_ids := by
  unfold gather_conflicts at h
  rw [List.mem_flatMap] at h
  obtain ⟨other, hmem, hx⟩ := h
  by_cases he : other = a
  · rw [if_pos he] at hx
    exact absurd hx (List.not_mem_nil x)
  · rw [if_neg he, List.mem_append] at hx
    rcases hx with hx | hx <;>
    · split at hx
      · rw [List.mem_singleton] at hx
        exact hx ▸ hmem
      · exact absurd hx (List.not_mem_nil x)

theorem mem_gather_conflicts_of_direct {cmd : Command} {m : ArgMatcher}
    {A B : ArgId} (hB : B ∈ m.present_ids) (hne : B ≠ A)
    (h : B ∈ gather_direct_conflicts cmd A ∨ A ∈ gather_direct_conflicts cmd B) :
    B ∈ gather_conflicts cmd m A := by
  unfold gather_conflicts
  rw [List.mem_flatMap]
  refine ⟨B, hB, ?_⟩
  rw [if_neg hne, List.mem_append]
  rcases h with h | h
  · exact Or.inl (by rw [if_pos h]; exact List.mem_singleton.mpr rfl)
  · exact Or.inr (by rw [if_pos h]; exact List.mem_singleton.mpr rfl)

theorem flatMap_singleton_of {l : List ArgId} {f : ArgId → List ArgId}
    (h : ∀ c ∈ l, f c = [c]) : l.flatMap f = l := by
  induction l with
  | nil => rfl
  | cons a t ih =>
    rw [List.flatMap_cons, h a (List.mem_cons_self a t),
      ih (fun c hc => h c (List.mem_cons_of_mem a hc))]
    rfl

end Clap

namespace Clap

theorem build_conflict_err_eq {cmd : Command} {name : ArgId}
    {cids : List ArgId} (hne : cids ≠ [])
    (hc : ∀ c ∈ cids, cmd.find_group c = none ∧ (cmd.find c).isSome)
    (hn : (cmd.find name).isSome) :
    build_conflict_err cmd name cids =
      .error (.argumentConflict name (insertAll [] cids)) := by
  unfold build_conflict_err
  rw [if_neg (by simpa [List.isEmpty_iff] using hne)]
  have hexp : (cids.flatMap (fun c =>
      if (cmd.find_group c).isSome then cmd.unroll_args_in_group c else [c])) = cids := by
    apply flatMap_singleton_of
    intro c hcm
    rw [(hc c hcm).1]
    rfl
  rw [hexp]
  have hall : ((insertAll [] cids).all (fun c => (cmd.find c).isSome)) = true := by
    rw [List.all_eq_true]
    intro c hcm
    rcases mem_insertAll.mp hcm with h | h
    · exact absurd h (List.not_mem_nil c)
    · exact (hc c h).2
  rw [if_pos hall, if_pos hn]

theorem build_conflict_err_shape (cmd : Command) (name : ArgId)
    (cids : List ArgId) :
    build_conflict_err cmd name cids = .ok () ∨
      (∃ f l, build_conflict_err cmd name cids = .error (.argumentConflict f l)) ∨
      build_conflict_err cmd name cids = .error .internalErr := by
  unfold build_conflict_err
  dsimp only
  split
  · exact Or.inl rfl
  · split
    · split
      · exact Or.inr (Or.inl ⟨_, _, rfl⟩)
      · exact Or.inr (Or.inr rfl)
    · exact Or.inr (Or.inr rfl)

theorem conflictsLoop_shape (cmd : Command) (m : ArgMatcher) (L : List ArgId) :
    conflictsLoop cmd m L = .ok () ∨
      (∃ f l, conflictsLoop cmd m L = .error (.argumentConflict f l)) ∨
      conflictsLoop cmd m L = .error .internalErr := by
  induction L with
  | nil => exact Or.inl rfl
  | cons h t ih =>
    unfold conflictsLoop
    rcases build_conflict_err_shape cmd h (gather_conflicts cmd m h) with hb | hb | hb
    · rw [hb]
      exact ih
    · obtain ⟨f, l, hb⟩ := hb
      rw [hb]
      exact Or.inr (Or.inl ⟨f, l, rfl⟩)
    · rw [hb]
      exact Or.inr (Or.inr rfl)

theorem validate_exclusive_shape (cmd : Command) (m : ArgMatcher) :
    validate_exclusive cmd m = .ok () ∨
      ∃ n, validate_exclusive cmd m = .error (.argumentConflict n []) := by
  unfold validate_exclusive
  dsimp only
  split
  · exact Or.inl rfl
  · split
    · exact Or.inr ⟨_, rfl⟩
    · exact Or.inl rfl

theorem validate_conflicts_shape (cmd : Command) (m : ArgMatcher) :
    validate_conflicts cmd m = .ok () ∨
      (∃ f l, validate_conflicts cmd m = .error (.argumentConflict f l)) ∨
      validate_conflicts cmd m = .error .internalErr := by
  unfold validate_conflicts
  rcases validate_exclusive_shape cmd m with he | ⟨n, he⟩
  · rw [he]
    exact conflictsLoop_shape cmd m _
  · rw [he]
    exact Or.inr (Or.inl ⟨n, [], rfl⟩)

theorem validate_required_shape (cmd : Command) (m : ArgMatcher)
    (req : List ArgId) :
    (validate_required cmd m req).1 = .ok () ∨
      ∃ l, (validate_required cmd m req).1 = .error (.missingRequiredArgument l) := by
  unfold validate_required
  dsimp only
  split
  · exact Or.inl rfl
  · exact Or.inr ⟨_, rfl⟩

theorem validate_required_snd (cmd : Command) (m : ArgMatcher)
    (req : List ArgId) :
    (validate_required cmd m req).2 = gather_requires cmd m req := by
  unfold validate_required
  dsimp only

end Clap

namespace Clap

theorem conflictsLoop_conflict {cmd : Command} {m : ArgMatcher} :
    ∀ {L : List ArgId},
      (∀ i ∈ L, (cmd.find i).isSome) →
      (∀ i ∈ m.present_ids, (cmd.find i).isSome ∧ cmd.find_group i = none) →
      ∀ {A : ArgId}, A ∈ L → gather_conflicts cmd m A ≠ [] →
      ∃ n cs, conflictsLoop cmd m L = .error (.argumentConflict n cs) := by
  intro L
  induction L with
  | nil =>
    intro _ _ A hA
    exact absurd hA (List.not_mem_nil A)
  | cons h t ih =>
    intro hL hwf A hA hconf
    unfold conflictsLoop
    by_cases hg : gather_conflicts cmd m h = []
    · rw [hg]
      have hb : build_conflict_err cmd h [] = .ok () := rfl
      rw [hb]
      have hAt : A ∈ t := by
        rcases List.mem_cons.mp hA with rfl | hAt
        · exact absurd hg hconf
        · exact hAt
      exact ih (fun i hi => hL i (List.mem_cons_of_mem h hi)) hwf hAt hconf
    · have hb : build_conflict_err cmd h (gather_conflicts cmd m h) =
          .error (.argumentConflict h (insertAll [] (gather_conflicts cmd m h))) := by
        apply build_conflict_err_eq hg
        · intro c hc
          have hcp := mem_present_of_mem_gather_conflicts hc
          exact ⟨(hwf c hcp).2, (hwf c hcp).1⟩
        · exact hL h (List.mem_cons_self h t)
      rw [hb]
      exact ⟨h, insertAll [] (gather_conflicts cmd m h), rfl⟩

theorem preChecks_ok {cmd : Command} {m : ArgMatcher} {hs : Bool}
    (hlen : m.present_ids ≠ [] ∨ cmd.arg_required_else_help = false)
    (hsub : cmd.subcommand_required = false) :
    preChecks cmd m hs = .ok () := by
  unfold preChecks
  have h2 : (!hs && cmd.subcommand_required) = false := by
    rw [hsub, Bool.and_false]
  have h1 : (!hs && cmd.arg_required_else_help && m.present_ids.length == 0) = false := by
    rcases hlen with hlen | hlen
    · have : (m.present_ids.length == 0) = false := by
        simpa [List.length_eq_zero] using hlen
      rw [this, Bool.and_false]
    · rw [hlen, Bool.and_false, Bool.false_and]
  rw [h1, h2]
  rfl

theorem validate_complete_eq {cmd : Command} {m : ArgMatcher}
    (hpre : preChecks cmd m m.subcommand.isSome = .ok ()) :
    validate cmd .complete m =
      match validate_conflicts cmd m with
      | .error e => (.error e, cmd.required_graph)
      | .ok _ =>
        if !(cmd.subcommand_negates_reqs && m.subcommand.isSome) then
          validate_required cmd m cmd.required_graph
        else (.ok (), cmd.required_graph) := by
  unfold validate
  dsimp only
  rw [show pendingCheck cmd .complete m = .ok () from rfl, hpre]

end Clap

namespace Clap

theorem validate_opt_eq {cmd : Command} {m : ArgMatcher} {a : ArgId}
    (hok : pendingCheck cmd (.opt a) m = .ok ())
    (hpre : preChecks cmd m m.subcommand.isSome = .ok ()) :
    validate cmd (.opt a) m =
      match validate_conflicts cmd m with
      | .error e => (.error e, cmd.required_graph)
      | .ok _ =>
        if !(cmd.subcommand_negates_reqs && m.subcommand.isSome) then
          validate_required cmd m cmd.required_graph
        else (.ok (), cmd.required_graph) := by
  unfold validate
  dsimp only
  rw [hok, hpre]

theorem foldl_insertAll_mono {f : ArgId → List ArgId} :
    ∀ {L : List ArgId} {req : List ArgId} {x : ArgId}, x ∈ req →
      x ∈ L.foldl (fun r n => insertAll r (f n)) req := by
  intro L
  induction L with
  | nil => intro req x h; exact h
  | cons a t ih =>
    intro req x h
    exact ih (mem_insertAll.mpr (Or.inl h))

theorem gather_requires_mono {cmd : Command} {m : ArgMatcher}
    {req : List ArgId} {x : ArgId} (h : x ∈ req) :
    x ∈ gather_requires cmd m req :=
  foldl_insertAll_mono h

theorem mem_gather_requires {cmd : Command} {m : ArgMatcher} :
    ∀ {L : List ArgId} {req : List ArgId} {x : ArgId},
      x ∈ L.foldl (fun r n => insertAll r (requires_contribution cmd m n)) req ↔
        x ∈ req ∨ ∃ n ∈ L, x ∈ requires_contribution cmd m n := by
  intro L
  induction L with
  | nil => simp
  | cons a t ih =>
    intro req x
    rw [List.foldl_cons, ih, mem_insertAll]
    simp only [List.mem_cons]
    constructor
    · rintro ((h | h) | ⟨n, hn, h⟩)
      · exact Or.inl h
      · exact Or.inr ⟨a, Or.inl rfl, h⟩
      · exact Or.inr ⟨n, Or.inr hn, h⟩
    · rintro (h | ⟨n, (rfl | hn), h⟩)
      · exact Or.inl (Or.inl h)
      · exact Or.inl (Or.inr h)
      · exact Or.inr ⟨n, hn, h⟩

theorem validate_snd (cmd : Command) (ps : ParseState) (m : ArgMatcher) :
    (validate cmd ps m).2 = cmd.required_graph ∨
      (validate cmd ps m).2 = gather_requires cmd m cmd.required_graph := by
  unfold validate
  dsimp only
  rcases hp : pendingCheck cmd ps m with e | u
  · exact Or.inl rfl
  · rcases hq : preChecks cmd m m.subcommand.isSome with e | u
    · exact Or.inl rfl
    · rcases hc : validate_conflicts cmd m with e | u
      · exact Or.inl rfl
      · dsimp only
        split
        · exact Or.inr (validate_required_snd cmd m cmd.required_graph)
        · exact Or.inl rfl

end Clap

namespace Clap

/-- C3: fail-fast versus fail-complete asymmetry.  On the schema `cmdC3a`
with two independent conflicting pairs (`a`/`b` and `c`/`d`) all present,
`validate` reports an `ArgumentConflict` naming only the first encountered
pair (`a` against `b`); on the schema `cmdC3b` with two independent missing
required arguments and no conflicts, `validate` aggregates both `p` and `q`
into one `MissingRequiredArgument` error. -/
theorem c3_fail_fast_vs_fail_complete :
    validate cmdC3a .complete mC3a =
      (.error (.argumentConflict "a" ["b"]), []) ∧
    validate cmdC3b .complete mEmpty =
      (.error (.missingRequiredArgument ["p", "q"]), ["p", "q"]) :=
  ⟨rfl, rfl⟩

/-- C2 counterexample: on `cmdC2` the exclusive argument `X` is explicitly
present, the Required-Set contains the group entry `G`, and yet `validate`
fails with a `MissingRequiredArgument` listing `G` — so the Step C scan is
not skipped for Required-Set entries naming groups, refuting the claim that
no Required-Set entry contributes to the missing list. -/
theorem c2_counterexample :
    is_exclusive_present cmdC2 mC2 = true ∧
    "G" ∈ cmdC2.required_graph ∧
    (validate cmdC2 .complete mC2).1 =
      .error (.missingRequiredArgument ["G"]) :=
  ⟨rfl, by decide, rfl⟩

end Clap


namespace Clap

theorem stepC_singleton_excl {cmd : Command} {m : ArgMatcher}
    {acc : List ArgId × Nat} {r x : ArgId}
    (hx : x ∈ (stepC cmd m true acc [r]).1) :
    x ∈ acc.1 ∨ (cmd.find x = none ∧ (cmd.find_group x).isSome) := by
  unfold stepC at hx
  simp only [List.foldl_cons, List.foldl_nil] at hx
  by_cases hp : m.check_explicit r .isPresent
  · rw [if_pos hp] at hx
    exact Or.inl hx
  · rw [if_neg hp] at hx
    rcases hf : cmd.find r with _ | arg
    · rw [hf] at hx
      dsimp only at hx
      rcases hg : cmd.find_group r with _ | group
      · rw [hg] at hx
        exact Or.inl hx
      · rw [hg] at hx
        dsimp only at hx
        by_cases ha : (cmd.unroll_args_in_group group.id).any
            (fun a => m.check_explicit a .isPresent)
        · rw [if_pos ha] at hx
          exact Or.inl hx
        · rw [if_neg ha] at hx
          rcases List.mem_append.mp hx with h | h
          · exact Or.inl h
          · have hid : group.id = r := find_group_eq_id hg
            rw [List.mem_singleton] at h
            subst h
            rw [hid]
            exact Or.inr ⟨hf, by rw [hg]; rfl⟩
    · rw [hf] at hx
      dsimp only at hx
      simp only [Bool.not_true, Bool.false_and, Bool.false_eq_true, if_false] at hx
      exact Or.inl hx

theorem stepC_excl {cmd : Command} {m : ArgMatcher} :
    ∀ {rs : List ArgId} {acc : List ArgId × Nat} {x : ArgId},
      x ∈ (stepC cmd m true acc rs).1 →
      x ∈ acc.1 ∨ (cmd.find x = none ∧ (cmd.find_group x).isSome) := by
  intro rs
  induction rs with
  | nil => intro acc x hx; exact Or.inl hx
  | cons r rest ih =>
    intro acc x hx
    have hx' : x ∈ (stepC cmd m true (stepC cmd m true acc [r]) rest).1 := hx
    rcases ih hx' with h | h
    · exact stepC_singleton_excl h
    · exact Or.inr h

end Clap

namespace Clap

/-- C2 amended: the exclusivity bypass skips the Step C missing-required scan
only for Required-Set entries that resolve to arguments — with the exclusive
flag observed, every identifier Step C adds to the missing list resolves to a
group rather than an argument; entries naming groups are still scanned and
can contribute, as the run on `cmdC2` shows, where the required group `G` is
reported missing despite the presence of the exclusive `X`. -/
theorem c2_exclusivity_bypass_amended :
    (∀ (cmd : Command) (m : ArgMatcher) (excl : Bool), excl = true →
      ∀ (rs : List ArgId) (acc : List ArgId × Nat) (x : ArgId),
        x ∈ (stepC cmd m excl acc rs).1 →
        x ∈ acc.1 ∨ (cmd.find x = none ∧ (cmd.find_group x).isSome)) ∧
    (validate cmdC2 .complete mC2).1 =
      .error (.missingRequiredArgument ["G"]) := by
  constructor
  · intro cmd m excl hexcl rs acc x hx
    subst hexcl
    exact stepC_excl hx
  · rfl

/-- C2 witness: instantiating the amended theorem on the concrete schema
`cmdC2`, required set `["G"]` and matcher `mC2`: the entry the Step C scan
adds under the exclusivity bypass is the group `G`, not an argument. -/
theorem c2_exclusivity_bypass_amended_witness :
    "G" ∈ ([] : List ArgId) ∨
      (cmdC2.find "G" = none ∧ (cmdC2.find_group "G").isSome) :=
  c2_exclusivity_bypass_amended.1 cmdC2 mC2 true rfl ["G"] ([], 0) "G" (by decide)

end Clap

namespace Clap

/-- C8 counterexample: the schema-unknown identifier `ghost` is explicitly
present in `mC8` and reaches the direct-conflict lookup during the run, yet
`gather_direct_conflicts` silently yields the empty conflict set (the
`debug_assert!` is a no-op in release builds) and the whole validation
continues and succeeds — refuting the claim that such a lookup failure is
fatal and never swallowed. -/
theorem c8_counterexample :
    cmdC8.find "ghost" = none ∧
    cmdC8.find_group "ghost" = none ∧
    "ghost" ∈ mC8.present_ids ∧
    gather_direct_conflicts cmdC8 "ghost" = [] ∧
    (validate cmdC8 .complete mC8).1 = .ok () :=
  ⟨rfl, rfl, by decide, rfl, rfl⟩

/-- C8 amended: an identifier unknown to the schema that reaches the
direct-conflict lookup produces the empty conflict set (a debug-only
assertion, swallowed in release builds) and validation continues, as the
successful run on `cmdC8`/`mC8` shows; by contrast, the display-form lookups
of `build_conflict_err`, guarded by `.expect(INTERNAL_ERROR_MSG)`, are fatal:
an unknown conflicting identifier makes the validator panic
(`internalErr`). -/
theorem c8_internal_consistency_amended :
    (∀ (cmd : Command) (x : ArgId), cmd.find x = none →
      cmd.find_group x = none → gather_direct_conflicts cmd x = []) ∧
    (∀ (cmd : Command) (name c : ArgId), cmd.find_group c = none →
      cmd.find c = none → build_conflict_err cmd name [c] = .error .internalErr) ∧
    (validate cmdC8 .complete mC8).1 = .ok () := by
  refine ⟨?_, ?_, rfl⟩
  · intro cmd x h1 h2
    unfold gather_direct_conflicts
    rw [h1, h2]
  · intro cmd name c hg hf
    unfold build_conflict_err
    simp [insertAll, insertIfNew, hg, hf]

/-- C8 witness: the fatal branch of the amended theorem at a concrete input —
building the conflict error on `cmdC8` with the unknown conflicting
identifier `ghost` panics with `internalErr`. -/
theorem c8_internal_consistency_amended_witness :
    build_conflict_err cmdC8 "a" ["ghost"] = .error .internalErr :=
  c8_internal_consistency_amended.2.1 cmdC8 "a" "ghost" rfl rfl

end Clap

namespace Clap

/-- C5 counterexample: with required positionals `P1` (index 1) and `P2`
(index 2) and only `P2` explicitly supplied, the missing list of the
`MissingRequiredArgument` error is exactly `["P1"]` — it does not contain the
present `P2`, refuting the claim that the list contains both. -/
theorem c5_counterexample :
    mC5.check_explicit "P2" .isPresent = true ∧
    (validate cmdC5 .complete mC5).1 =
      .error (.missingRequiredArgument ["P1"]) ∧
    "P2" ∉ (["P1"] : List ArgId) :=
  ⟨rfl, rfl, by decide⟩

/-- C5 amended: with required positionals `P1` (index 1) and `P2` (index 2)
and only `P2` supplied, the missing list is exactly `["P1"]` (a present
positional is never reported missing); the general back-fill clause holds as
stated: unless the schema allows missing positionals, every not-yet-present
positional whose index is below the running maximum from Steps C/D is
appended to the missing list by Step E. -/
theorem c5_positional_backfill_amended :
    (validate cmdC5 .complete mC5).1 =
      .error (.missingRequiredArgument ["P1"]) ∧
    (∀ (cmd : Command) (m : ArgMatcher) (missing : List ArgId)
        (highest : Nat) (pos : Arg),
      cmd.allow_missing_positional = false →
      pos ∈ cmd.get_positionals →
      m.check_explicit pos.id .isPresent = false →
      posIndexLt pos.index highest = true →
      pos.id ∈ stepE cmd m missing highest) := by
  refine ⟨rfl, ?_⟩
  intro cmd m missing highest pos hallow hpos hnp hlt
  unfold stepE
  rw [hallow]
  simp only [Bool.not_false, if_true]
  rw [List.mem_append]
  right
  rw [List.mem_map]
  refine ⟨pos, ?_, rfl⟩
  rw [List.mem_filter]
  exact ⟨hpos, by rw [hnp, hlt]; rfl⟩

/-- C5 witness: the back-fill clause of the amended theorem at a concrete
input — with nothing supplied and the running maximum index 2, Step E appends
the unfilled positional `P1`. -/
theorem c5_positional_backfill_amended_witness :
    argP1.id ∈ stepE cmdC5 mEmpty [] 2 :=
  c5_positional_backfill_amended.2 cmdC5 mEmpty [] 2 argP1 rfl (by decide) rfl rfl

end Clap

namespace Clap

theorem stepD_flag_iff (m : ArgMatcher) (a : Arg) :
    stepD_required_flag m a = true ↔
      ((∃ p ∈ a.r_ifs, m.check_explicit p.1 (.equals p.2) = true) ∨
       (a.r_ifs_all ≠ [] ∧
         ∀ p ∈ a.r_ifs_all, m.check_explicit p.1 (.equals p.2) = true) ∨
       ((a.r_unless ≠ [] ∨ a.r_unless_all ≠ []) ∧
         fails_arg_required_unless a m = true)) := by
  unfold stepD_required_flag
  dsimp only
  simp only [Bool.or_eq_true, Bool.and_eq_true, List.any_eq_true,
    List.all_eq_true, Bool.not_eq_true', List.isEmpty_eq_false]
  rw [or_assoc]
  exact or_congr Iff.rfl (or_congr and_comm Iff.rfl)

theorem stepD_fst_eq (cmd : Command) (m : ArgMatcher) :
    ∀ (acc : List ArgId × Nat),
      (stepD cmd m acc).1 = acc.1 ++
        (((cmd.get_arguments.filter
            (fun a => !m.check_explicit a.id .isPresent)).filter
          (fun a => stepD_required_flag m a)).map Arg.id) := by
  unfold stepD
  generalize (cmd.get_arguments.filter (fun a => !m.check_explicit a.id .isPresent)) = L
  induction L with
  | nil => intro acc; simp
  | cons a t ih =>
    intro acc
    rw [List.foldl_cons]
    by_cases hf : stepD_required_flag m a
    · rw [if_pos hf]
      rw [ih]
      simp [List.filter_cons, hf]
    · rw [if_neg hf]
      rw [ih]
      simp only [List.filter_cons]
      rw [if_neg (by simpa using hf)]

end Clap

namespace Clap

/-- C6 counterexample: the plain optional argument `v` has empty
requires-unless and requires-unless-all lists and is not present, so clause
(iii) of the claim holds for it as stated (the requires-unless-all list is
empty, and no requires-unless condition is satisfied — there are none), yet
`validate` on `cmdC6x` succeeds and `v` is not reported required-and-missing:
the claim omits the nonemptiness guard the code places on the unless
clause. -/
theorem c6_counterexample :
    argV.r_unless = [] ∧ argV.r_unless_all = [] ∧
    mEmpty.check_explicit argV.id .isPresent = false ∧
    fails_arg_required_unless argV mEmpty = true ∧
    (validate cmdC6x .complete mEmpty).1 = .ok () :=
  ⟨rfl, rfl, rfl, rfl, rfl⟩

/-- C6 amended: a schema argument not explicitly present fires the Step D
requirement flag exactly when (i) some requires-if condition is satisfied, or
(ii) the requires-if-all list is nonempty and fully satisfied, or (iii) at
least one of the requires-unless or requires-unless-all lists is nonempty and
the argument fails its required-unless conditions; each such argument is
appended to the missing list of Step D.  The required-unless escape behaves
as claimed: with `A` declaring requires-unless `[B]`, supplying `B` leaves
`A` unreported while supplying nothing reports `A` missing. -/
theorem c6_conditional_sweep_amended :
    (∀ (m : ArgMatcher) (a : Arg),
      stepD_required_flag m a = true ↔
        ((∃ p ∈ a.r_ifs, m.check_explicit p.1 (.equals p.2) = true) ∨
         (a.r_ifs_all ≠ [] ∧
           ∀ p ∈ a.r_ifs_all, m.check_explicit p.1 (.equals p.2) = true) ∨
         ((a.r_unless ≠ [] ∨ a.r_unless_all ≠ []) ∧
           fails_arg_required_unless a m = true))) ∧
    (∀ (cmd : Command) (m : ArgMatcher) (acc : List ArgId × Nat),
      (stepD cmd m acc).1 = acc.1 ++
        (((cmd.get_arguments.filter
            (fun a => !m.check_explicit a.id .isPresent)).filter
          (fun a => stepD_required_flag m a)).map Arg.id)) ∧
    (validate cmdC6 .complete mC6B).1 = .ok () ∧
    (validate cmdC6 .complete mEmpty).1 =
      .error (.missingRequiredArgument ["A"]) :=
  ⟨stepD_flag_iff, fun cmd m acc => stepD_fst_eq cmd m acc, rfl, rfl⟩

/-- C6 witness: the amended flag equivalence at a concrete input — `A` with
requires-unless `[B]` and nothing supplied fires the Step D requirement
flag. -/
theorem c6_conditional_sweep_amended_witness :
    stepD_required_flag mEmpty argA = true :=
  (c6_conditional_sweep_amended.1 mEmpty argA).mpr
    (Or.inr (Or.inr ⟨Or.inl (by decide), rfl⟩))

end Clap

namespace Clap

/-- C9: Required-Set monotonicity — the required set is seeded at validator
construction with the static required closure `Command.required_graph`; the
insertion operation and the requirement-discovery fold only ever add
identifiers; and after any `validate` run the final required set is a
superset of the static closure. -/
theorem c9_required_set_monotonicity (cmd : Command) (ps : ParseState)
    (m : ArgMatcher) :
    (∀ x ∈ cmd.required_graph, x ∈ (validate cmd ps m).2) ∧
    (∀ (req : List ArgId) (a x : ArgId), x ∈ req → x ∈ insertIfNew req a) ∧
    (∀ (req : List ArgId) (x : ArgId), x ∈ req →
      x ∈ gather_requires cmd m req) := by
  refine ⟨?_, ?_, ?_⟩
  · intro x hx
    rcases validate_snd cmd ps m with h | h <;> rw [h]
    · exact hx
    · exact gather_requires_mono hx
  · intro req a x hx
    exact mem_insertIfNew.mpr (Or.inl hx)
  · intro req x hx
    exact gather_requires_mono hx

/-- C9 witness: on the schema `cmdC3b` the statically required `p` is still
in the required set returned by a concrete `validate` run. -/
theorem c9_required_set_monotonicity_witness :
    "p" ∈ (validate cmdC3b .complete mEmpty).2 :=
  (c9_required_set_monotonicity cmdC3b .complete mEmpty).1 "p" (by decide)

end Clap

namespace Clap

/-- C10: requirement discovery evaluates the present argument against its own
recorded value — a target from the requires list of a present argument is
contributed to the Required-Set exactly when the predicate of its entry holds
of the present argument itself in the matcher; the contribution is invariant
under changing every other matcher record; and an identifier is in the
gathered required set exactly when it was already required or some present
identifier contributed it. -/
theorem c10_requirement_discovery_own_values (cmd : Command) (m : ArgMatcher)
    (name : ArgId) (a : Arg) (hfind : cmd.find name = some a) :
    (∀ t : ArgId, t ∈ requires_contribution cmd m name ↔
       ∃ p ∈ a.requires, p.2 = t ∧ m.check_explicit a.id p.1 = true) ∧
    (∀ m' : ArgMatcher, m'.get a.id = m.get a.id →
       requires_contribution cmd m' name = requires_contribution cmd m name) ∧
    (∀ (req : List ArgId) (x : ArgId),
       x ∈ gather_requires cmd m req ↔
         x ∈ req ∨ ∃ n ∈ m.present_ids, x ∈ requires_contribution cmd m n) := by
  have hid : a.id = name := find_eq_id hfind
  have hfa : cmd.find a.id = some a := by rw [hid]; exact hfind
  refine ⟨?_, ?_, ?_⟩
  · intro t
    unfold requires_contribution
    rw [hfind]
    dsimp only
    unfold Command.unroll_arg_requires
    rw [hfa, List.mem_filterMap]
    constructor
    · rintro ⟨p, hp, hf⟩
      by_cases hc : m.check_explicit a.id p.1
      · rw [if_pos hc] at hf
        exact ⟨p, hp, Option.some.inj hf, hc⟩
      · rw [if_neg hc] at hf
        exact absurd hf (by simp)
    · rintro ⟨p, hp, ht, hc⟩
      exact ⟨p, hp, by rw [if_pos hc, ht]⟩
  · intro m' hget
    unfold requires_contribution
    rw [hfind]
    dsimp only
    unfold Command.unroll_arg_requires
    rw [hfa]
    apply List.filterMap_congr
    intro p _
    have hpred : m'.check_explicit a.id p.1 = m.check_explicit a.id p.1 := by
      unfold ArgMatcher.check_explicit
      rw [hget]
    rw [hpred]
  · intro req x
    unfold gather_requires
    exact mem_gather_requires

/-- C10 witness: on `cmdC10`/`mC10` the present argument `s`, supplied with
the value `on`, contributes the target `t` of its requires-if entry. -/
theorem c10_requirement_discovery_own_values_witness :
    "t" ∈ requires_contribution cmdC10 mC10 "s" :=
  ((c10_requirement_discovery_own_values cmdC10 mC10 "s" argS rfl).1 "t").mpr
    ⟨(.equals "on", "t"), by decide, rfl, rfl⟩

end Clap

namespace Clap

/-- C1: conflict symmetry — in a well-formed run (every present identifier
resolves to a schema argument and not to a group) with distinct `A` and `B`
both explicitly present, a one-sided conflict declaration in either direction
makes `validate` fail with an `ArgumentConflict` error; the hypothesis on the
subcommand-required flag keeps the earlier phases from diverting the run
before the conflict check. -/
theorem c1_conflict_symmetry (cmd : Command) (m : ArgMatcher) (A B : ArgId)
    (hwf : ∀ i ∈ m.present_ids, (cmd.find i).isSome ∧ cmd.find_group i = none)
    (hA : A ∈ m.present_ids) (hB : B ∈ m.present_ids) (hne : A ≠ B)
    (hconf : B ∈ gather_direct_conflicts cmd A ∨
      A ∈ gather_direct_conflicts cmd B)
    (hsub : cmd.subcommand_required = false) :
    ∃ n cs, (validate cmd .complete m).1 =
      .error (.argumentConflict n cs) := by
  have hpre : preChecks cmd m m.subcommand.isSome = .ok () :=
    preChecks_ok (Or.inl (List.ne_nil_of_mem hA)) hsub
  rw [validate_complete_eq hpre]
  have hvc : ∃ n cs, validate_conflicts cmd m =
      .error (.argumentConflict n cs) := by
    unfold validate_conflicts
    rcases validate_exclusive_shape cmd m with he | ⟨n, he⟩
    · rw [he]
      have hgA : gather_conflicts cmd m A ≠ [] := by
        apply List.ne_nil_of_mem
        exact mem_gather_conflicts_of_direct hB (Ne.symm hne) hconf
      exact conflictsLoop_conflict
        (fun i hi => (List.mem_filter.mp hi).2) hwf
        (List.mem_filter.mpr ⟨hA, (hwf A hA).1⟩) hgA
    · rw [he]
      exact ⟨n, [], rfl⟩
  obtain ⟨n, cs, hvc⟩ := hvc
  rw [hvc]
  exact ⟨n, cs, rfl⟩

/-- C1 witness: on `cmdC1`, where `A` blacklists `B` but `B` does not declare
`A`, supplying both (in matcher order `B`, `A`) fails with an
`ArgumentConflict`. -/
theorem c1_conflict_symmetry_witness :
    ∃ n cs, (validate cmdC1 .complete mC1).1 =
      .error (.argumentConflict n cs) :=
  c1_conflict_symmetry cmdC1 mC1 "A" "B" (by decide) (by decide) (by decide)
    (by decide) (Or.inl (by decide)) rfl

end Clap

namespace Clap

theorem validate_exclusive_fires {cmd : Command} {m : ArgMatcher} {X : ArgId}
    {argX : Arg} (hfind : cmd.find X = some argX) (hex : argX.exclusive = true)
    (hX : X ∈ m.present_ids) (hlen : 1 < m.present_ids.length) :
    ∃ (n : ArgId) (arg : Arg), cmd.find n = some arg ∧ arg.exclusive = true ∧
      validate_exclusive cmd m = .error (.argumentConflict arg.id []) := by
  unfold validate_exclusive
  dsimp only
  rw [if_neg (by omega : ¬ m.present_ids.length ≤ 1)]
  have hfX : ((cmd.find X).filter
      (fun arg => arg.exclusive && decide (m.present_ids.length > 1))) = some argX := by
    rw [hfind]
    rw [Option.filter_eq_some]
    refine ⟨rfl, ?_⟩
    rw [hex, decide_eq_true hlen]
    rfl
  have hmem : argX ∈ List.filterMap
      (fun name => (cmd.find name).filter
        (fun arg => arg.exclusive && decide (m.present_ids.length > 1)))
      m.present_ids :=
    List.mem_filterMap.mpr ⟨X, hX, hfX⟩
  rcases hh : (List.filterMap
      (fun name => (cmd.find name).filter
        (fun arg => arg.exclusive && decide (m.present_ids.length > 1)))
      m.present_ids).head? with _ | arg
  · rw [List.head?_eq_none_iff] at hh
    rw [hh] at hmem
    exact absurd hmem (List.not_mem_nil argX)
  · rw [hh]
    have harg : arg ∈ List.filterMap
        (fun name => (cmd.find name).filter
          (fun arg => arg.exclusive && decide (m.present_ids.length > 1)))
        m.present_ids :=
      List.mem_of_mem_head? (Option.mem_def.mpr hh)
    obtain ⟨n, hn, hfn⟩ := List.mem_filterMap.mp harg
    rw [Option.filter_eq_some] at hfn
    refine ⟨n, arg, Option.mem_def.mp hfn.1, ?_, rfl⟩
    have := hfn.2
    rw [Bool.and_eq_true] at this
    exact this.1

end Clap

namespace Clap

/-- C4: exclusive argument — when an exclusive argument `X` is explicitly
present together with another explicitly-present identifier `Y`, `validate`
fails with an `ArgumentConflict` naming a single exclusive argument and
carrying an empty conflicting list (no declared conflict between `X` and `Y`
is needed); and whenever a matcher reports exactly one present identifier,
the whole conflict phase passes, so no such failure occurs. -/
theorem c4_exclusive_argument (cmd : Command) (m : ArgMatcher) (X Y : ArgId)
    (argX : Arg) (hfind : cmd.find X = some argX) (hex : argX.exclusive = true)
    (hX : X ∈ m.present_ids) (hY : Y ∈ m.present_ids) (hne : X ≠ Y)
    (hsub : cmd.subcommand_required = false) :
    (∃ (n : ArgId) (arg : Arg), cmd.find n = some arg ∧ arg.exclusive = true ∧
      (validate cmd .complete m).1 = .error (.argumentConflict arg.id [])) ∧
    (∀ (cmd' : Command) (m' : ArgMatcher) (X' : ArgId),
      m'.present_ids = [X'] → validate_conflicts cmd' m' = .ok ()) := by
  constructor
  · have hlen : 1 < m.present_ids.length := by
      by_contra h
      push_neg at h
      rcases Nat.le_one_iff_eq_zero_or_eq_one.mp h with h0 | h1
      · rw [List.length_eq_zero] at h0
        rw [h0] at hX
        exact absurd hX (List.not_mem_nil X)
      · obtain ⟨a, ha⟩ := List.length_eq_one.mp h1
        rw [ha, List.mem_singleton] at hX hY
        exact hne (hX.trans hY.symm)
    obtain ⟨n, arg, hfindn, hexn, he⟩ :=
      validate_exclusive_fires hfind hex hX hlen
    have hpre : preChecks cmd m m.subcommand.isSome = .ok () :=
      preChecks_ok (Or.inl (List.ne_nil_of_mem hX)) hsub
    rw [validate_complete_eq hpre]
    have hvc : validate_conflicts cmd m =
        .error (.argumentConflict arg.id []) := by
      unfold validate_conflicts
      rw [he]
    rw [hvc]
    exact ⟨n, arg, hfindn, hexn, rfl⟩
  · intro cmd' m' X' hpres
    unfold validate_conflicts
    have hex1 : validate_exclusive cmd' m' = .ok () := by
      unfold validate_exclusive
      dsimp only
      rw [hpres]
      rfl
    rw [hex1]
    by_cases hf : (cmd'.find X').isSome
    · have hfilter : m'.present_ids.filter (fun i => (cmd'.find i).isSome) = [X'] := by
        rw [hpres]
        simp [hf]
      rw [hfilter]
      unfold conflictsLoop
      have hg : gather_conflicts cmd' m' X' = [] := by
        unfold gather_conflicts
        rw [hpres]
        simp
      rw [hg]
      rfl
    · have hfilter : m'.present_ids.filter (fun i => (cmd'.find i).isSome) = [] := by
        rw [hpres]
        simp [hf]
      rw [hfilter]
      rfl

end Clap

namespace Clap

/-- C4 witness: on `cmdC2` the exclusive `X` supplied together with `M`
fails with an `ArgumentConflict` naming one exclusive argument with an empty
conflicting list, and a matcher with a single present identifier passes the
conflict phase. -/
theorem c4_exclusive_argument_witness :
    (∃ (n : ArgId) (arg : Arg), cmdC2.find n = some arg ∧
      arg.exclusive = true ∧
      (validate cmdC2 .complete mC4).1 = .error (.argumentConflict arg.id [])) ∧
    (∀ (cmd' : Command) (m' : ArgMatcher) (X' : ArgId),
      m'.present_ids = [X'] → validate_conflicts cmd' m' = .ok ()) :=
  c4_exclusive_argument cmdC2 mC4 "X" "M"
    { id := "X", exclusive := true } rfl rfl (by decide) (by decide)
    (by decide) rfl

end Clap

namespace Clap

theorem preChecks_shape (cmd : Command) (m : ArgMatcher) (hs : Bool) :
    preChecks cmd m hs = .ok () ∨ preChecks cmd m hs = .error .displayHelp ∨
      ∃ b, preChecks cmd m hs = .error (.missingSubcommand b) := by
  unfold preChecks
  split
  · exact Or.inr (Or.inl rfl)
  · split
    · exact Or.inr (Or.inr ⟨_, rfl⟩)
    · exact Or.inl rfl

/-- C7 counterexample: the pending option `z` has a minimum value count of
zero, so the claimed equivalence says the pending-value phase passes; but `z`
has no matcher record at all, and the code errs on a missing record
regardless of the minimum value count: `validate` returns `EmptyValue`. -/
theorem c7_counterexample :
    argZ.min_vals = 0 ∧ mEmpty.get "z" = none ∧
    (validate cmdC7b (.opt "z") mEmpty).1 = .error (.emptyValue "z" []) :=
  ⟨rfl, rfl, rfl⟩

/-- C7 amended: with `parse_state` pending on option `a` resolving to the
schema argument `o`, `validate` returns the `EmptyValue` error carrying the
visible possible values of `o` exactly when the matcher record of `o` has all
value groups empty and the minimum value count is nonzero, or `o` has no
matcher record at all; when that condition fails, no phase of the run
produces an `EmptyValue` error. -/
theorem c7_pending_value_amended (cmd : Command) (m : ArgMatcher) (a : ArgId)
    (o : Arg) (hfind : cmd.find a = some o) :
    ((match m.get o.id with
      | some v => v.all_val_groups_empty && o.min_vals != 0
      | none => true) = true →
      (validate cmd (.opt a) m).1 = .error (.emptyValue o.id
        (((get_possible_values_cli o).filter (fun pv => !pv.hide)).map
          PossibleValue.name))) ∧
    ((match m.get o.id with
      | some v => v.all_val_groups_empty && o.min_vals != 0
      | none => true) = false →
      ∀ (id : ArgId) (pvs : List String),
        (validate cmd (.opt a) m).1 ≠ .error (.emptyValue id pvs)) := by
  constructor
  · intro hse
    have hp : pendingCheck cmd (.opt a) m = .error (.emptyValue o.id
        (((get_possible_values_cli o).filter (fun pv => !pv.hide)).map
          PossibleValue.name)) := by
      unfold pendingCheck
      dsimp only
      rw [hfind]
      dsimp only
      rw [hse]
      rfl
    unfold validate
    dsimp only
    rw [hp]
  · intro hse id pvs
    have hp : pendingCheck cmd (.opt a) m = .ok () := by
      unfold pendingCheck
      dsimp only
      rw [hfind]
      dsimp only
      rw [hse]
      rfl
    unfold validate
    dsimp only
    rw [hp]
    rcases preChecks_shape cmd m m.subcommand.isSome with hq | hq | ⟨b, hq⟩ <;>
      rw [hq]
    · rcases validate_conflicts_shape cmd m with hc | ⟨f, l, hc⟩ | hc <;> rw [hc]
      · dsimp only
        split
        · rcases validate_required_shape cmd m cmd.required_graph with hr | ⟨l, hr⟩ <;>
            rw [hr] <;> intro hcon <;> cases hcon
        · intro hcon
          cases hcon
      · intro hcon
        cases hcon
      · intro hcon
        cases hcon
    · intro hcon
      cases hcon
    · intro hcon
      cases hcon

end Clap

namespace Clap

/-- C7 witness: the amended theorem at a concrete input — the pending option
`count` has one recorded but empty value group and minimum value count 1, so
`validate` returns `EmptyValue` carrying only the visible possible value
`a` (the hidden `b` is filtered out). -/
theorem c7_pending_value_amended_witness :
    (validate cmdC7 (.opt "count") mC7).1 = .error (.emptyValue argCount.id
      (((get_possible_values_cli argCount).filter (fun pv => !pv.hide)).map
        PossibleValue.name)) :=
  (c7_pending_value_amended cmdC7 mC7 "count" argCount rfl).1 rfl

end Clap
